import Mathlib

/-!
Verification development for the privacy-preserving anonymization core of a
GDPR compliance toolkit.  The three components under study are the
k-anonymity engine, the PII detector and the pseudonymizer; each is given a
shallow embedding below, translated function by function from its source
module, and the behavioural claims about them are settled as theorems.

Modelling conventions:
- A tabular batch is a list of column names plus row-major cell lists; cell
  values are an abstract type with decidable equality (null handling of the
  underlying dataframe library is outside the claims under study, so cells
  are plain values).
- Fallible operations (missing-column key errors of the dataframe library,
  the TypeError of the vulnerable-combination loop) return an Except value.
- Under the pinned dataframe library (pandas 2) a value_counts over a single
  column has a flat index, so the check iterates scalar combinations; the
  Python-level iterability of a cell value (characters for strings, nothing
  for numbers or dates) is a parameter of the check.
- Group enumeration order is first-occurrence order; the dataframe library
  orders groups differently (by count or sorted key), but every claim under
  study is order-insensitive, so only membership and counts matter.
-/

section KAnonymityEngine

variable {α : Type} [DecidableEq α]

/-- A tabular batch: ordered column names and row-major cells. -/
structure Table (α : Type) where
  cols : List String
  rows : List (List α)
deriving DecidableEq

/-- Value of one cell of a row, addressed by column name (first matching
column, as the dataframe column lookup does); none when the column is absent
or the row is too short. -/
def rowVal (cols : List String) (row : List α) (c : String) : Option α :=
  match cols.findIdx? (fun x => x == c) with
  | some i => row.get? i
  | none => none

/-- The quasi-identifier tuple of a row: the row projected to the declared
quasi-identifier columns. -/
def keyOf (cols : List String) (qi : List String) (row : List α) : List (Option α) :=
  qi.map (fun c => rowVal cols row c)

/-- Number of rows of the table whose quasi-identifier tuple equals k. -/
def countKey (t : Table α) (qi : List String) (k : List (Option α)) : Nat :=
  t.rows.countP (fun r => keyOf t.cols qi r == k)

/-- The distinct quasi-identifier tuples occurring in the table. -/
def groupKeys (t : Table α) (qi : List String) : List (List (Option α)) :=
  (t.rows.map (keyOf t.cols qi)).dedup

/-- Each distinct quasi-identifier tuple with its occurrence count; this is
the value_counts step of check_k_anonymity and suppress_rows. -/
def combinationCounts (t : Table α) (qi : List String) : List (List (Option α) × Nat) :=
  (groupKeys t qi).map (fun k => (k, countKey t qi k))

/-- Size of the group a given row belongs to. -/
def groupSizeOfRow (t : Table α) (qi : List String) (r : List α) : Nat :=
  countKey t qi (keyOf t.cols qi r)

/-- A value of one vulnerable-combination dict entry: either a cell value
taken from the combination, or the integer count stored under the count
key. -/
inductive VCell (α : Type) where
  | val (v : Option α)
  | cnt (n : Nat)
deriving DecidableEq

/-- Result record of a k-anonymity check (KAnonymityResult in the source);
each vulnerable combination is the dict the source builds for it, in
insertion order. -/
structure KResult (α : Type) where
  k_value : Nat
  is_compliant : Bool
  vulnerable_combinations : List (List (String × VCell α))
  recommendations : List String
deriving DecidableEq

/-- Whether every declared quasi-identifier column exists in the table. -/
def allPresent (t : Table α) (qi : List String) : Bool :=
  qi.all (fun c => t.cols.contains c)

/-- The recommendation message of the missing-columns branch. -/
def missingMsg (cols : List String) : String :=
  "Missing columns: " ++ String.intercalate ", " cols

/-- First recommendation of the non-compliant branch. -/
def recLowK (mink thr : Nat) : String :=
  "Dataset has k=" ++ toString mink ++ ", but threshold is " ++ toString thr

/-- Second recommendation of the non-compliant branch. -/
def recVulnCount (n : Nat) : String :=
  "Found " ++ toString n ++ " vulnerable combinations"

/-- Third recommendation of the non-compliant branch. -/
def recConsider : String :=
  "Consider: Generalization, Suppression, or Sampling"

/-- Error message standing for the TypeError raised by zip when the scalar
combination value of a single quasi-identifier is not iterable. -/
def typeErrorMsg : String := "TypeError: zip argument is not iterable"

/-- Assignment into a dict modelled as an assoc list in insertion order: an
existing key keeps its position and gets the new value, a new key is
appended. -/
def dictInsert (d : List (String × VCell α)) (key : String) (v : VCell α) :
    List (String × VCell α) :=
  if (d.lookup key).isSome then
    d.map (fun p => if p.1 == key then (p.1, v) else p)
  else d ++ [(key, v)]

/-- The dict built from a pair list (dict(zip(...)) in the source): later
pairs with an already-seen key overwrite in place. -/
def pyDict (pairs : List (String × Option α)) : List (String × VCell α) :=
  pairs.foldl (fun d p => dictInsert d p.1 (VCell.val p.2)) []

/-- The zip of the quasi-identifier names with one vulnerable combination,
as the source executes it under the pinned dataframe library (pandas 2):
with a single quasi-identifier the value_counts index is flat, so the
combination is the bare cell value, and zip iterates it — character by
character for a string (pyIter gives the Python-level iteration of a value,
none for non-iterables), a TypeError otherwise; with any other arity the
combination is the tuple and the zip is componentwise. -/
def comboPairs (pyIter : α → Option (List α)) (qi : List String)
    (k : List (Option α)) : Except String (List (String × Option α)) :=
  match qi, k with
  | [q], [v] =>
    match v.bind pyIter with
    | some elems => .ok (List.zip [q] (elems.map some))
    | none => .error typeErrorMsg
  | qs, ks => .ok (qs.zip ks)

/-- The vulnerable-combination loop of check_k_anonymity: for each group
below the threshold, build dict(zip(quasi_identifiers, combo)), then assign
the count under the count key (overwriting a quasi-identifier of that name);
the first TypeError aborts the whole call. -/
def vulnerableEntries (pyIter : α → Option (List α)) (qi : List String) :
    List (List (Option α) × Nat) → Except String (List (List (String × VCell α)))
  | [] => .ok []
  | p :: ps =>
    match comboPairs pyIter qi p.1 with
    | .error e => .error e
    | .ok pairs =>
      match vulnerableEntries pyIter qi ps with
      | .error e => .error e
      | .ok rest => .ok (dictInsert (pyDict pairs) "count" (VCell.cnt p.2) :: rest)

/-- Python-level iterability of string cell values: a string iterates over
its characters, each itself a one-character string. -/
def pyIterStr : String → Option (List String) :=
  fun s => some (s.toList.map (fun c => String.mk [c]))

/-- KAnonymityChecker.check_k_anonymity: verify all quasi-identifier columns
exist (else k=0, non-compliant, with a missing-columns recommendation), count
the quasi-identifier tuples, take the minimum count as k (0 when there are no
rows), run the vulnerable-combination loop over the groups below the
threshold (which can raise for a single quasi-identifier whose flat
combination value is not iterable), and report compliance as k at or above
the threshold.  pyIter is the Python-level iteration of a cell value. -/
def check_k_anonymity (pyIter : α → Option (List α)) (thr : Nat) (t : Table α)
    (qi : List String) : Except String (KResult α) :=
  let missing := qi.filter (fun c => !(t.cols.contains c))
  if missing = [] then
    let counts := combinationCounts t qi
    let mink := match (counts.map (fun p => p.2)).min? with
      | some m => m
      | none => 0
    let vulnerable := counts.filter (fun p => p.2 < thr)
    match vulnerableEntries pyIter qi vulnerable with
    | .error e => .error e
    | .ok ventries =>
      let recs :=
        if mink < thr then
          [recLowK mink thr, recVulnCount ventries.length, recConsider]
        else []
      .ok ⟨mink, decide (thr ≤ mink), ventries, recs⟩
  else
    .ok ⟨0, false, [], [missingMsg missing]⟩

/-- Resolution of the optional min_group_size argument: the Python idiom
(min_group_size or self.k_threshold) falls back to the threshold both when
the argument is omitted and when it is 0. -/
def resolveMin (m : Option Nat) (thr : Nat) : Nat :=
  match m with
  | none => thr
  | some k => if k = 0 then thr else k

/-- Error message standing for the KeyError the dataframe library raises when
a referenced column is absent. -/
def keyErrorMsg : String := "KeyError: column not found"

/-- The row mask built for one valid combination in suppress_rows: the
conjunction over quasi-identifier columns of cell equality with the
combination value. -/
def rowMatchesCombo (cols : List String) (qi : List String) (row : List α)
    (k : List (Option α)) : Bool :=
  (qi.zip k).all (fun p => rowVal cols row p.1 == p.2)

/-- KAnonymityChecker.suppress_rows: resolve the minimum group size, count
quasi-identifier combinations, keep the combinations of sufficient size; if
none, return an empty table with the same columns, otherwise keep exactly the
rows matching some valid combination.  Accessing the quasi-identifier columns
raises a key error when one is absent (the source has no missing-column guard
here). -/
def suppress_rows (thr : Nat) (t : Table α) (qi : List String)
    (m : Option Nat) : Except String (Table α) :=
  if allPresent t qi then
    let ms := resolveMin m thr
    let valid := ((combinationCounts t qi).filter (fun p => ms ≤ p.2)).map (fun p => p.1)
    if valid = [] then
      .ok ⟨t.cols, []⟩
    else
      .ok ⟨t.cols, t.rows.filter (fun r => valid.any (fun k => rowMatchesCombo t.cols qi r k))⟩
  else
    .error keyErrorMsg

/-- Replace the cells of one column (addressed by name, first occurrence)
with the image under f, keeping every other cell; this is the elementwise
effect of KAnonymityChecker.generalize on its target column, with the
level-dependent, dtype-dependent coarsening function abstracted as f. -/
def mapColumn (t : Table α) (c : String) (f : α → α) : Table α :=
  match t.cols.findIdx? (fun x => x == c) with
  | some i => ⟨t.cols, t.rows.map (fun r => r.mapIdx (fun j v => if j = i then f v else v))⟩
  | none => t

/-- The generalization loop of ensure_k_anonymity: for each strategy entry in
order, if its column exists, replace that column by its generalized values.
A strategy entry carries the elementwise coarsening function its level
denotes. -/
def applyGeneralization (strat : List (String × (α → α))) (t : Table α) : Table α :=
  strat.foldl (fun acc p => if acc.cols.contains p.1 then mapColumn acc p.1 p.2 else acc) t

/-- KAnonymityChecker.ensure_k_anonymity: apply the optional generalization,
check (a TypeError of the vulnerable loop propagates); if non-compliant and
suppression is enabled, suppress (with the default minimum group size) and
re-check; return the transformed table with the final check result. -/
def ensure_k_anonymity (pyIter : α → Option (List α)) (thr : Nat) (t : Table α)
    (qi : List String) (strat : List (String × (α → α)))
    (apply_suppression : Bool) : Except String (Table α × KResult α) :=
  let g := applyGeneralization strat t
  match check_k_anonymity pyIter thr g qi with
  | .error e => .error e
  | .ok r =>
    if !r.is_compliant && apply_suppression then
      match suppress_rows thr g qi none with
      | .error e => .error e
      | .ok t2 =>
        match check_k_anonymity pyIter thr t2 qi with
        | .error e => .error e
        | .ok r2 => .ok (t2, r2)
    else
      .ok (g, r)

/-- A cell of the aggregate-only view: a group-key cell, a symbolic
group-level statistic (the aggregation name together with the multiset of
group values it is computed over; the numeric evaluation the dataframe
library performs is irrelevant to the claims and kept symbolic), or a group
size cell. -/
inductive AggCell (α : Type) where
  | key (v : Option α)
  | stat (fn : String) (vals : List α)
  | cnt (n : Nat)
deriving DecidableEq

/-- The raw rows of the group with key k. -/
def groupRows (t : Table α) (gb : List String) (k : List (Option α)) : List (List α) :=
  t.rows.filter (fun r => keyOf t.cols gb r == k)

/-- The values of column c over the group with key k. -/
def colValsOf (t : Table α) (gb : List String) (k : List (Option α)) (c : String) : List α :=
  (groupRows t gb k).filterMap (fun r => rowVal t.cols r c)

/-- Error message standing for the error the dataframe library raises on a
groupby with no keys or with an absent key column. -/
def groupbyErrMsg : String := "groupby error: invalid group keys"

/-- Error message standing for the KeyError raised when the group-count
filter references the _group_count column on the aggregation path that never
created it (empty aggregation dictionary). -/
def groupCountKeyErrMsg : String := "KeyError: _group_count"

/-- KAnonymityChecker.create_aggregate_only_view: group by the declared
columns, keep the aggregation entries whose column exists (the name dispatch
in the source maps every recognized name to itself and passes unrecognized
names through, so it is the identity on the name), and
- when no aggregation entry survives, build the group-size table; the
  subsequent group-count filter then references the absent _group_count
  column and raises, unless the resolved minimum is 0 (falsy) and the filter
  is skipped;
- otherwise build one row per group of key cells, statistic cells and a
  trailing _group_count cell; when the resolved minimum is nonzero, drop the
  groups below it and the _group_count column, else keep both. -/
def create_aggregate_only_view (thr : Nat) (t : Table α) (gb : List String)
    (aggs : List (String × String)) (m : Option Nat) :
    Except String (Table (AggCell α)) :=
  if gb = [] ∨ allPresent t gb = false then .error groupbyErrMsg
  else
    let ms := resolveMin m thr
    let aggd := aggs.filter (fun p => t.cols.contains p.1)
    let keys := groupKeys t gb
    if aggd = [] then
      if ms = 0 then
        .ok ⟨gb ++ ["count"], keys.map (fun k => k.map AggCell.key ++ [AggCell.cnt (countKey t gb k)])⟩
      else
        .error groupCountKeyErrMsg
    else
      let kept := if ms = 0 then keys else keys.filter (fun k => ms ≤ countKey t gb k)
      .ok ⟨gb ++ aggd.map (fun p => p.1) ++ (if ms = 0 then ["_group_count"] else []),
           kept.map (fun k =>
             k.map AggCell.key
             ++ aggd.map (fun p => AggCell.stat p.2 (colValsOf t gb k p.1))
             ++ (if ms = 0 then [AggCell.cnt (countKey t gb k)] else []))⟩

end KAnonymityEngine

section PIIDetector

/-- The closed enumeration of PII types (PIIType in the source). -/
inductive PIIType where
  | email
  | phone
  | ssn
  | credit_card
  | ip_address
  | passport
  | driver_license
  | bank_account
  | date_of_birth
  | name
deriving DecidableEq

/-- One PII classification (PIIDetection in the source); confidence is exact
rational arithmetic standing for the float computation of the source. -/
structure PIIDetection where
  pii_type : PIIType
  column_name : String
  row_count : Nat
  sample_values : List String
  confidence : ℚ
deriving DecidableEq

/-- Sampled column values: none stands for a null (or non-string) sampled
value, which the matching loops skip. -/
def SampleList : Type := List (Option String)

/-- The sampled values that the pattern accepts: non-null, non-empty string
values for which the matcher fires (the loop guard is value truthiness plus
the string-instance check, then the pattern search). -/
def matchesOf (pat : String → Bool) (samples : List (Option String)) : List String :=
  samples.filterMap (fun v =>
    match v with
    | some s => if s ≠ "" && pat s then some s else none
    | none => none)

/-- Confidence of a pattern detector: min of 1.2 times the match ratio and
1.0. -/
def patternConfidence (mcount n : Nat) : ℚ :=
  min ((mcount : ℚ) / (n : ℚ) * (6 / 5)) 1

/-- Resolution of the optional full_data_size argument: the Python
truthiness test falls back to the sample size both when the argument is
omitted and when it is 0. -/
def resolvedRowCount (fullSize : Option Nat) (n : Nat) : Nat :=
  match fullSize with
  | some k => if k = 0 then n else k
  | none => n

/-- The pattern loop of PIIDetector.detect_pii_in_column: for each registry
entry, collect the matching samples; when any exist and the confidence
reaches the configured minimum, emit a classification carrying the resolved
row count and the first 5 matches. -/
def patternDetections (patterns : List (PIIType × (String → Bool))) (minConf : ℚ)
    (col : String) (samples : List (Option String)) (fullSize : Option Nat) :
    List PIIDetection :=
  patterns.filterMap (fun p =>
    let ms := matchesOf p.2 samples
    if ms = [] then none
    else
      let c := patternConfidence ms.length samples.length
      if minConf ≤ c then
        some ⟨p.1, col, resolvedRowCount fullSize samples.length, ms.take 5, c⟩
      else none)

/-- The reference name dictionary of the detector (COMMON_NAMES). -/
def commonNames : List String :=
  ["john", "jane", "smith", "johnson", "williams", "brown", "jones",
   "garcia", "miller", "davis", "rodriguez", "martinez", "hernandez"]

/-- The column-name tokens that trigger the name detector. -/
def nameIndicators : List String :=
  ["name", "firstname", "lastname", "fullname", "customer_name"]

/-- Whether the first list occurs at the head of the second. -/
def leadsChars : List Char → List Char → Bool
  | [], _ => true
  | _ :: _, [] => false
  | a :: as, b :: bs => a == b && leadsChars as bs

/-- Whether the first list occurs contiguously inside the second. -/
def hasSubChars (pat : List Char) : List Char → Bool
  | [] => pat.isEmpty
  | c :: cs => leadsChars pat (c :: cs) || hasSubChars pat cs

/-- Substring containment on strings (the Python in operator on str). -/
def strHasSub (pat s : String) : Bool :=
  hasSubChars pat.toList s.toList

/-- Characterwise lower-casing (the Python lower()); written over the
character list so it evaluates structurally. -/
def lowerStr (s : String) : String := String.mk (s.toList.map Char.toLower)

/-- Whitespace splitting with empty fragments dropped (the Python split()
with no separator); the accumulator holds the current word reversed. -/
def splitWordsAux (acc : List Char) : List Char → List String
  | [] => if acc.isEmpty then [] else [String.mk acc.reverse]
  | c :: cs =>
    if c.isWhitespace then
      if acc.isEmpty then splitWordsAux [] cs
      else String.mk acc.reverse :: splitWordsAux [] cs
    else splitWordsAux (c :: acc) cs

/-- The words of a value, lower-cased then split on whitespace with empty
fragments dropped (the Python lower().split()). -/
def wordsOf (s : String) : List String :=
  splitWordsAux [] (lowerStr s).toList

/-- Whether a sampled value contains a word of the reference name
dictionary. -/
def hasCommonName (s : String) : Bool :=
  (wordsOf s).any (fun w => commonNames.contains w)

/-- PIIDetector._detect_names: when the column name contains a
name-indicating token, count the truthy string samples containing a
dictionary name; when positive and the confidence min(ratio times 1.5, 0.9)
reaches the minimum, emit one NAME classification whose row count is the
sample size and whose sample values are the truthy values among the first 5
samples. -/
def nameDetections (minConf : ℚ) (col : String) (samples : List (Option String)) :
    List PIIDetection :=
  if nameIndicators.any (fun ind => strHasSub ind (lowerStr col)) then
    let ncount := samples.countP (fun v =>
      match v with
      | some s => s ≠ "" && hasCommonName s
      | none => false)
    if ncount = 0 then []
    else
      let c := min ((ncount : ℚ) / (samples.length : ℚ) * (3 / 2)) (9 / 10)
      if minConf ≤ c then
        [⟨PIIType.name, col, samples.length,
          (samples.take 5).filterMap (fun v =>
            match v with
            | some s => if s ≠ "" then some s else none
            | none => none),
          c⟩]
      else []
  else []

/-- PIIDetector.detect_pii_in_column: empty sample yields nothing; otherwise
the pattern-loop detections followed by the name-detector detections. -/
def detect_pii_in_column (patterns : List (PIIType × (String → Bool))) (minConf : ℚ)
    (col : String) (samples : List (Option String)) (fullSize : Option Nat) :
    List PIIDetection :=
  if samples.length = 0 then []
  else patternDetections patterns minConf col samples fullSize
       ++ nameDetections minConf col samples

/-- Modelled from the claim wording (for comparison with the source): the
number of non-null string sampled values accepted by the pattern.  The
source loop additionally skips empty strings; the two counts agree for any
pattern rejecting the empty string, which every built-in pattern does. -/
def specMatchCount (pat : String → Bool) (samples : List (Option String)) : Nat :=
  samples.countP (fun v =>
    match v with
    | some s => pat s
    | none => false)

/-- A toy matcher standing in for the email pattern in concrete
evaluations: accept strings containing an at sign. -/
def emailAt : String → Bool := fun s => s.toList.contains '@'

end PIIDetector

section Pseudonymizer

/-- The secret handed to the constructor: the annotated type is str but the
key-preparation branches also handle a bytes value (the isinstance checks in
the source), so both are modelled. -/
inductive Secret where
  | str (s : String)
  | bytes (b : List Nat)
deriving DecidableEq

/-- The prepared 32-byte key, tagged by the branch of _prepare_key that
produced it: the input passed through as an already-encoded key, the hex
conversion, or the password-based derivation from a passphrase. -/
inductive PreparedKey where
  | asIs (k : Secret)
  | fromHex (s : String)
  | fromPassphrase (s : String)
deriving DecidableEq

/-- The hexadecimal digits accepted by the hex-decoding branch. -/
def hexDigits : List Char := "0123456789abcdefABCDEF".toList

/-- Whether a string is 64 hexadecimal characters (the fromhex branch guard;
the whitespace tolerance of the underlying decoder is immaterial here since
every string input succeeds on some branch). -/
def isHex64 (s : String) : Bool :=
  s.length == 64 && s.toList.all (fun c => hexDigits.contains c)

/-- Pseudonymizer._prepare_key: first try base64-decoding to a 32-byte key
(the decode outcome is a parameter, since it applies to str and bytes alike);
then, for strings of 64 hex characters, the hex conversion; then any string
is treated as a passphrase and run through the key-derivation function; any
other value reaches the final invalid-format error. -/
def prepare_key (b64DecodedLen : Secret → Option Nat) (k : Secret) :
    Except String PreparedKey :=
  if b64DecodedLen k = some 32 then .ok (.asIs k)
  else
    match k with
    | .str s => if isHex64 s then .ok (.fromHex s) else .ok (.fromPassphrase s)
    | .bytes _ => .error "Invalid key format"

/-- A value as returned by pseudonymize: the input returned unchanged (falsy
input), a token of the symmetric cipher under the instance main key, or a
deterministic-mode token encrypted under the per-value derived key and
base64-wrapped (hence opaque to the main key).  The nonce records the fresh
randomness the cipher draws at encryption time. -/
inductive PVal where
  | raw (s : String)
  | mainTok (nonce : Nat) (plain : String)
  | detTok (nonce : Nat) (plain : String)
deriving DecidableEq

/-- Instance state of a Pseudonymizer: the value-to-token cache (an assoc
list in insertion order, standing for the dict) and a counter supplying the
fresh randomness consumed by each encryption. -/
structure PState where
  cache : List (String × PVal)
  nonceCtr : Nat
deriving DecidableEq

/-- Pseudonymizer.pseudonymize: falsy values are returned unchanged; in
deterministic mode a cached token is returned as-is; otherwise the value is
encrypted under the main key (consuming one nonce), and in deterministic mode
additionally encrypted under the per-value derived key (consuming a second
nonce), the resulting token cached and returned; in non-deterministic mode
the main-key ciphertext is the token and nothing is cached. -/
def pseudonymize (st : PState) (value : String) (deterministic : Bool) :
    PVal × PState :=
  if value = "" then (PVal.raw value, st)
  else
    match deterministic, st.cache.lookup value with
    | true, some tok => (tok, st)
    | det, _ =>
      let n0 := st.nonceCtr
      if det then
        let tok := PVal.detTok (n0 + 1) value
        (tok, ⟨st.cache ++ [(value, tok)], n0 + 2⟩)
      else
        (PVal.mainTok n0 value, ⟨st.cache, n0 + 1⟩)

/-- Decryption under the instance main key: succeeds exactly on main-key
tokens (deterministic tokens are encrypted under a different, per-value key
and base64-wrapped, so the main cipher rejects them, as do raw strings). -/
def decryptMain : PVal → Option String
  | PVal.mainTok _ p => some p
  | _ => none

/-- Pseudonymizer.depseudonymize: falsy input is returned unchanged; then
decryption with the main key is attempted; on failure the cache is scanned in
insertion order for an entry whose token equals the input and its original
value returned; otherwise the reversal error is raised. -/
def depseudonymize (st : PState) (tok : PVal) : Except String String :=
  if tok = PVal.raw "" then .ok ""
  else
    match decryptMain tok with
    | some v => .ok v
    | none =>
      match st.cache.find? (fun e => e.2 == tok) with
      | some e => .ok e.1
      | none => .error "Cannot depseudonymize value"

end Pseudonymizer

section PseudonymizerTheorems

/-- Appending a fresh binding to an assoc list with no binding for the key
makes lookup find it. -/
theorem lookup_append_of_none {β : Type} (a : String) (b : β) :
    ∀ l : List (String × β), l.lookup a = none → (l ++ [(a, b)]).lookup a = some b := by
  intro l
  induction l with
  | nil => intro _; simp [List.lookup]
  | cons hd tl ih =>
    intro h
    cases hd with
    | mk k v =>
      cases hkb : (a == k) with
      | true =>
        simp only [List.lookup, hkb] at h
        exact Option.noConfusion h
      | false =>
        have h2 := ih (by simpa only [List.lookup, hkb] using h)
        simpa only [List.cons_append, List.lookup, hkb] using h2

/-- C5: in deterministic mode, pseudonymizing a non-empty value leaves the
resulting token in the instance cache, and pseudonymizing it again returns
the very same token without changing the state (hence every later call
returns the cached token as well). -/
theorem pseudonymize_det_repeat_stable (st : PState) (v : String) (h : v ≠ "") :
    pseudonymize (pseudonymize st v true).2 v true = pseudonymize st v true
    ∧ (pseudonymize st v true).2.cache.lookup v = some (pseudonymize st v true).1 := by
  cases hcl : st.cache.lookup v with
  | some tok =>
    constructor
    · simp [pseudonymize, h, hcl]
    · simp [pseudonymize, h, hcl]
  | none =>
    have h2 : (st.cache ++ [(v, PVal.detTok (st.nonceCtr + 1) v)]).lookup v
        = some (PVal.detTok (st.nonceCtr + 1) v) :=
      lookup_append_of_none v _ st.cache hcl
    constructor
    · simp [pseudonymize, h, hcl, h2]
    · simp [pseudonymize, h, hcl, h2]

/-- C5 witness: a concrete non-empty value on a fresh instance. -/
theorem pseudonymize_det_repeat_stable_witness :
    ("bob" ≠ "")
    ∧ (pseudonymize (pseudonymize ⟨[], 0⟩ "bob" true).2 "bob" true
         = pseudonymize ⟨[], 0⟩ "bob" true
       ∧ (pseudonymize ⟨[], 0⟩ "bob" true).2.cache.lookup "bob"
         = some (pseudonymize ⟨[], 0⟩ "bob" true).1) :=
  ⟨by decide, pseudonymize_det_repeat_stable ⟨[], 0⟩ "bob" (by decide)⟩

/-- C6: the token produced in non-deterministic mode decrypts under the
instance main key, so depseudonymize returns the original value exactly. -/
theorem pseudonymize_nondet_roundtrip (st : PState) (v : String) (h : v ≠ "") :
    depseudonymize (pseudonymize st v false).2 (pseudonymize st v false).1
      = Except.ok v := by
  cases hcl : st.cache.lookup v with
  | some tok => simp [pseudonymize, depseudonymize, decryptMain, h, hcl]
  | none => simp [pseudonymize, depseudonymize, decryptMain, h, hcl]

/-- C6 witness: a concrete non-empty value on a fresh instance. -/
theorem pseudonymize_nondet_roundtrip_witness :
    ("alice" ≠ "")
    ∧ depseudonymize (pseudonymize ⟨[], 0⟩ "alice" false).2
        (pseudonymize ⟨[], 0⟩ "alice" false).1 = Except.ok "alice" :=
  ⟨by decide, pseudonymize_nondet_roundtrip ⟨[], 0⟩ "alice" (by decide)⟩

/-- C10: key preparation never reaches the invalid-key-format error for a
string secret: whatever the base64 probe returns, a string falls into the
pass-through, hex or passphrase branch, so some prepared key is returned. -/
theorem prepare_key_total_on_strings (b64DecodedLen : Secret → Option Nat) (s : String) :
    ∃ pk, prepare_key b64DecodedLen (Secret.str s) = Except.ok pk := by
  unfold prepare_key
  by_cases h1 : b64DecodedLen (Secret.str s) = some 32
  · exact ⟨PreparedKey.asIs (Secret.str s), by simp [h1]⟩
  · by_cases h2 : isHex64 s = true
    · exact ⟨PreparedKey.fromHex s, by simp [h1, h2]⟩
    · exact ⟨PreparedKey.fromPassphrase s, by simp [h1, h2]⟩

end PseudonymizerTheorems

section MissingColumnTheorems

/-- C9 evaluation: with quasi-identifier column b absent from a batch with
only column a, the check is indeed non-fatal and surfaces k=0,
non-compliant, with the missing-columns recommendation; but the ensure
pipeline with suppression enabled then calls suppress_rows, which accesses
the missing column without a guard and raises the key error instead of
continuing, contradicting the claimed non-fatal behaviour of the ensure
path. -/
theorem missing_column_check_ok_ensure_raises :
    check_k_anonymity (fun _ => none) 5 (⟨["a"], [[0]]⟩ : Table Nat) ["b"]
      = Except.ok ⟨0, false, [], [missingMsg ["b"]]⟩
    ∧ ensure_k_anonymity (fun _ => none) 5 (⟨["a"], [[0]]⟩ : Table Nat) ["b"]
        ([] : List (String × (Nat → Nat))) true
      = Except.error keyErrorMsg := by
  constructor
  · rfl
  · rfl

end MissingColumnTheorems

section KAnonymityTheorems

variable {α : Type} [DecidableEq α]

/-- Membership in the distinct group keys is witnessed by a row. -/
theorem mem_groupKeys_iff (t : Table α) (qi : List String) (k : List (Option α)) :
    k ∈ groupKeys t qi ↔ ∃ r ∈ t.rows, keyOf t.cols qi r = k := by
  simp [groupKeys, List.mem_dedup, List.mem_map]

/-- Every group key has the arity of the quasi-identifier list. -/
theorem length_of_mem_groupKeys (t : Table α) (qi : List String) (k : List (Option α))
    (h : k ∈ groupKeys t qi) : k.length = qi.length := by
  obtain ⟨r, _, hk⟩ := (mem_groupKeys_iff t qi k).mp h
  rw [← hk]
  simp [keyOf]

/-- Membership in the combination-count list. -/
theorem mem_combinationCounts_iff (t : Table α) (qi : List String)
    (k : List (Option α)) (c : Nat) :
    (k, c) ∈ combinationCounts t qi ↔ k ∈ groupKeys t qi ∧ c = countKey t qi k := by
  simp only [combinationCounts, List.mem_map, Prod.mk.injEq]
  constructor
  · rintro ⟨k2, hk2, hke, hce⟩
    subst hke
    exact ⟨hk2, hce.symm⟩
  · rintro ⟨hk, hc⟩
    exact ⟨k, hk, rfl, hc.symm⟩

/-- The per-combination row mask of suppress_rows holds exactly on the rows
whose quasi-identifier tuple is that combination. -/
theorem rowMatchesCombo_iff (cols : List String) (r : List α) :
    ∀ (qi : List String) (k : List (Option α)), k.length = qi.length →
      (rowMatchesCombo cols qi r k = true ↔ keyOf cols qi r = k) := by
  intro qi
  induction qi with
  | nil =>
    intro k hl
    have hk : k = [] := List.length_eq_zero.mp hl
    subst hk
    simp [rowMatchesCombo, keyOf]
  | cons c cs ih =>
    intro k hl
    cases k with
    | nil => simp at hl
    | cons kv ks =>
      have hlen : ks.length = cs.length := by simpa using hl
      simp only [rowMatchesCombo, keyOf, List.zip_cons_cons, List.all_cons,
        Bool.and_eq_true, beq_iff_eq, List.map_cons, List.cons.injEq]
      constructor
      · rintro ⟨h1, h2⟩
        exact ⟨h1, (ih ks hlen).mp h2⟩
      · rintro ⟨h1, h2⟩
        exact ⟨h1, (ih ks hlen).mpr h2⟩

/-- On a table with all quasi-identifier columns present, suppress_rows
keeps exactly the rows whose group reaches the resolved minimum size, with
the column list unchanged (hence an empty table of the same schema when no
group qualifies). -/
theorem suppress_rows_eq (thr : Nat) (t : Table α) (qi : List String) (m : Option Nat)
    (hp : allPresent t qi = true) :
    suppress_rows thr t qi m =
      Except.ok ⟨t.cols,
        t.rows.filter (fun r => decide (resolveMin m thr ≤ groupSizeOfRow t qi r))⟩ := by
  have hmemvalid : ∀ k,
      k ∈ (((combinationCounts t qi).filter (fun p => resolveMin m thr ≤ p.2)).map
        (fun p => p.1))
      ↔ k ∈ groupKeys t qi ∧ resolveMin m thr ≤ countKey t qi k := by
    intro k
    simp only [List.mem_map, List.mem_filter]
    constructor
    · rintro ⟨p, ⟨hpmem, hple⟩, hpk⟩
      obtain ⟨hk, hc⟩ := (mem_combinationCounts_iff t qi p.1 p.2).mp (by
        cases p; exact hpmem)
      subst hpk
      exact ⟨hk, by rw [← hc]; exact of_decide_eq_true hple⟩
    · rintro ⟨hk, hle⟩
      exact ⟨(k, countKey t qi k),
        ⟨(mem_combinationCounts_iff t qi k _).mpr ⟨hk, rfl⟩, decide_eq_true hle⟩, rfl⟩
  have hany : ∀ r ∈ t.rows,
      ((((combinationCounts t qi).filter (fun p => resolveMin m thr ≤ p.2)).map
        (fun p => p.1)).any (fun k => rowMatchesCombo t.cols qi r k))
      = decide (resolveMin m thr ≤ groupSizeOfRow t qi r) := by
    intro r hr
    by_cases hs : resolveMin m thr ≤ groupSizeOfRow t qi r
    · rw [decide_eq_true hs]
      apply List.any_eq_true.mpr
      refine ⟨keyOf t.cols qi r, ?_, ?_⟩
      · exact (hmemvalid _).mpr ⟨(mem_groupKeys_iff t qi _).mpr ⟨r, hr, rfl⟩, hs⟩
      · exact (rowMatchesCombo_iff t.cols r qi _ (by simp [keyOf])).mpr rfl
    · rw [decide_eq_false hs]
      apply List.any_eq_false.mpr
      intro k hk
      obtain ⟨hkg, hkle⟩ := (hmemvalid k).mp hk
      intro hmatch
      have hkey := (rowMatchesCombo_iff t.cols r qi k
        (length_of_mem_groupKeys t qi k hkg)).mp hmatch
      exact hs (by rw [groupSizeOfRow, hkey]; exact hkle)
  simp only [suppress_rows, hp, if_true]
  by_cases hv : (((combinationCounts t qi).filter (fun p => resolveMin m thr ≤ p.2)).map
      (fun p => p.1)) = []
  · rw [if_pos hv]
    congr 1
    congr 1
    symm
    rw [List.filter_eq_nil_iff]
    intro r hr hdec
    have hs := of_decide_eq_true hdec
    have hmem := (hmemvalid (keyOf t.cols qi r)).mpr
      ⟨(mem_groupKeys_iff t qi _).mpr ⟨r, hr, rfl⟩, hs⟩
    rw [hv] at hmem
    exact List.not_mem_nil _ hmem
  · rw [if_neg hv]
    congr 1
    congr 1
    exact List.filter_congr hany

end KAnonymityTheorems

section KAnonymityClaims

variable {α : Type} [DecidableEq α]

/-- C4: on a batch with all declared quasi-identifier columns present,
suppress_rows returns a table with the same columns whose rows are exactly
the input rows whose quasi-identifier group reaches the resolved minimum
size (the optional argument, defaulting to the threshold); in particular,
when no group qualifies the filter is empty and the result is an empty table
of the same schema. -/
theorem suppress_rows_removes_small_groups (thr : Nat) (t : Table α)
    (qi : List String) (m : Option Nat) (hp : allPresent t qi = true) :
    suppress_rows thr t qi m =
      Except.ok ⟨t.cols,
        t.rows.filter (fun r => decide (resolveMin m thr ≤ groupSizeOfRow t qi r))⟩ :=
  suppress_rows_eq thr t qi m hp

/-- C4 witness: suppressing the size-1 group of a concrete batch. -/
theorem suppress_rows_removes_small_groups_witness :
    allPresent (⟨["a"], [[0], [1], [1]]⟩ : Table Nat) ["a"] = true
    ∧ suppress_rows 2 (⟨["a"], [[0], [1], [1]]⟩ : Table Nat) ["a"] none =
      Except.ok ⟨(⟨["a"], [[0], [1], [1]]⟩ : Table Nat).cols,
        (⟨["a"], [[0], [1], [1]]⟩ : Table Nat).rows.filter
          (fun r => decide (resolveMin none 2 ≤
            groupSizeOfRow (⟨["a"], [[0], [1], [1]]⟩ : Table Nat) ["a"] r))⟩ :=
  ⟨by decide, suppress_rows_removes_small_groups 2 ⟨["a"], [[0], [1], [1]]⟩ ["a"] none (by decide)⟩

/-- C2 evaluation: the vulnerable-combination loop at single-quasi-identifier
inputs under the pinned dataframe library.  First conjunct: on a numeric
column with groups of sizes 1 and 2 at threshold 2, the scalar combination is
not iterable and the check raises a TypeError instead of reporting the
vulnerable group.  Second conjunct: on a string column the scalar combination
is iterated character by character, so the reported entry carries only the
first character x of the vulnerable value xy, not its tuple.  Third
conjunct: a quasi-identifier column named count has its value overwritten by
the count key, so the tuple value is lost.  Each contradicts the claimed
report of every vulnerable group with its tuple and count. -/
theorem vulnerable_loop_single_qi_trace :
    check_k_anonymity (fun _ => none) 2 (⟨["a"], [[0], [1], [1]]⟩ : Table Nat) ["a"]
      = Except.error typeErrorMsg
    ∧ check_k_anonymity pyIterStr 2
        (⟨["a"], [["xy"], ["zz"], ["zz"]]⟩ : Table String) ["a"]
      = Except.ok ⟨1, false,
          [[("a", VCell.val (some "x")), ("count", VCell.cnt 1)]],
          [recLowK 1 2, recVulnCount 1, recConsider]⟩
    ∧ check_k_anonymity pyIterStr 2
        (⟨["count"], [["xy"], ["zz"], ["zz"]]⟩ : Table String) ["count"]
      = Except.ok ⟨1, false, [[("count", VCell.cnt 1)]],
          [recLowK 1 2, recVulnCount 1, recConsider]⟩ := by
  refine ⟨rfl, rfl, rfl⟩

/-- C1 evaluation: ensure_k_anonymity with suppression enabled calls the
check before suppressing; at threshold 2 on a numeric single
quasi-identifier with groups of sizes 1 and 2, the check raises the
TypeError of its vulnerable loop, so ensure aborts and returns no table at
all, although a qualifying group of size 2 at or above the threshold exists
(second conjunct), contradicting the claimed guarantee that a table with k
at least the threshold is returned. -/
theorem ensure_crashes_before_suppression :
    ensure_k_anonymity (fun _ => none) 2 (⟨["a"], [[0], [1], [1]]⟩ : Table Nat)
        ["a"] ([] : List (String × (Nat → Nat))) true
      = Except.error typeErrorMsg
    ∧ 2 ≤ countKey (⟨["a"], [[0], [1], [1]]⟩ : Table Nat) ["a"] [some 1] := by
  refine ⟨rfl, by decide⟩

end KAnonymityClaims

section AggregateViewClaims

variable {α : Type} [DecidableEq α]

/-- C3: whenever create_aggregate_only_view returns a table, every returned
row is the row of some group key whose underlying raw-row count reaches the
resolved minimum group size (the optional argument, defaulting to the
threshold): no statistic of a smaller group is emitted.  The paths on which
the source raises (groupby without valid keys, or the group-count filter on
the empty-aggregation path) return no table and are excluded by the
hypothesis. -/
theorem aggregate_view_min_group_size (thr : Nat) (t : Table α) (gb : List String)
    (aggs : List (String × String)) (m : Option Nat) (out : Table (AggCell α))
    (h : create_aggregate_only_view thr t gb aggs m = Except.ok out) :
    ∀ row ∈ out.rows, ∃ k, row.take gb.length = k.map AggCell.key
      ∧ resolveMin m thr ≤ countKey t gb k := by
  by_cases h1 : gb = [] ∨ allPresent t gb = false
  · simp [create_aggregate_only_view, h1] at h
  · by_cases h2 : aggs.filter (fun p => t.cols.contains p.1) = []
    · by_cases h3 : resolveMin m thr = 0
      · simp only [create_aggregate_only_view, if_neg h1, h2, h3, if_pos,
          reduceIte, Except.ok.injEq] at h
        intro row hrow
        rw [← h] at hrow
        obtain ⟨k, hk, hrk⟩ := List.mem_map.mp hrow
        have hlen : (k.map (AggCell.key (α := α))).length = gb.length := by
          rw [List.length_map]
          exact length_of_mem_groupKeys t gb k hk
        refine ⟨k, ?_, ?_⟩
        · rw [← hrk, ← hlen, List.take_left]
        · rw [h3]
          exact Nat.zero_le _
      · simp only [create_aggregate_only_view, if_neg h1, h2, h3, if_pos,
          reduceIte] at h
        exact Except.noConfusion h
    · by_cases h3 : resolveMin m thr = 0
      · simp only [create_aggregate_only_view, if_neg h1, if_neg h2, h3,
          reduceIte, Except.ok.injEq] at h
        intro row hrow
        rw [← h] at hrow
        obtain ⟨k, hk, hrk⟩ := List.mem_map.mp hrow
        have hlen : (k.map (AggCell.key (α := α))).length = gb.length := by
          rw [List.length_map]
          exact length_of_mem_groupKeys t gb k hk
        refine ⟨k, ?_, ?_⟩
        · rw [← hrk, List.append_assoc, ← hlen, List.take_left]
        · rw [h3]
          exact Nat.zero_le _
      · simp only [create_aggregate_only_view, if_neg h1, if_neg h2, h3,
          reduceIte, Except.ok.injEq] at h
        intro row hrow
        rw [← h] at hrow
        obtain ⟨k, hk, hrk⟩ := List.mem_map.mp hrow
        obtain ⟨hkg, hkc⟩ := List.mem_filter.mp hk
        have hlen : (k.map (AggCell.key (α := α))).length = gb.length := by
          rw [List.length_map]
          exact length_of_mem_groupKeys t gb k hkg
        refine ⟨k, ?_, ?_⟩
        · rw [← hrk, List.append_assoc, ← hlen, List.take_left]
        · exact of_decide_eq_true hkc

/-- C3 witness: group sizes 2 and 1 at minimum size 2; only the size-2
group survives in the aggregate view. -/
theorem aggregate_view_min_group_size_witness :
    create_aggregate_only_view 5 (⟨["g", "x"], [[0, 1], [0, 2], [1, 3]]⟩ : Table Nat)
      ["g"] [("x", "sum")] (some 2)
      = Except.ok ⟨["g", "x"], [[AggCell.key (some 0), AggCell.stat "sum" [1, 2]]]⟩
    ∧ ∀ row ∈ (⟨["g", "x"], [[AggCell.key (some 0), AggCell.stat "sum" [1, 2]]]⟩ :
        Table (AggCell Nat)).rows,
        ∃ k, row.take (["g"].length) = k.map AggCell.key
          ∧ resolveMin (some 2) 5 ≤ countKey (⟨["g", "x"], [[0, 1], [0, 2], [1, 3]]⟩ : Table Nat) ["g"] k :=
  ⟨by rfl,
   aggregate_view_min_group_size 5 ⟨["g", "x"], [[0, 1], [0, 2], [1, 3]]⟩ ["g"]
     [("x", "sum")] (some 2)
     ⟨["g", "x"], [[AggCell.key (some 0), AggCell.stat "sum" [1, 2]]]⟩ (by rfl)⟩

end AggregateViewClaims

section PIIDetectorTheorems

/-- Membership in the match list of a pattern. -/
theorem mem_matchesOf (pat : String → Bool) (samples : List (Option String)) (s : String) :
    s ∈ matchesOf pat samples ↔ some s ∈ samples ∧ s ≠ "" ∧ pat s = true := by
  simp only [matchesOf, List.mem_filterMap]
  constructor
  · rintro ⟨v, hv, he⟩
    cases v with
    | none => exact Option.noConfusion he
    | some s2 =>
      have he2 : (if (decide (s2 ≠ "") && pat s2) = true then some s2 else none)
          = some s := he
      by_cases hc : (decide (s2 ≠ "") && pat s2) = true
      · rw [if_pos hc] at he2
        have hss := Option.some.inj he2
        subst hss
        simp only [Bool.and_eq_true, decide_eq_true_eq] at hc
        exact ⟨hv, hc.1, hc.2⟩
      · rw [if_neg hc] at he2
        exact Option.noConfusion he2
  · rintro ⟨hv, hne, hp⟩
    refine ⟨some s, hv, ?_⟩
    show (if (decide (s ≠ "") && pat s) = true then some s else none) = some s
    rw [if_pos]
    simp [hne, hp]

/-- For a pattern rejecting the empty string, the claim-side match count
coincides with the length of the match list computed by the source loop. -/
theorem specMatchCount_eq (pat : String → Bool) (hpe : pat "" = false) :
    ∀ samples : List (Option String),
      specMatchCount pat samples = (matchesOf pat samples).length := by
  intro samples
  induction samples with
  | nil => rfl
  | cons v vs ih =>
    cases v with
    | none =>
      simp only [specMatchCount, matchesOf, List.countP_cons, List.filterMap_cons] at *
      simpa using ih
    | some s =>
      by_cases hs : s = ""
      · subst hs
        simp only [specMatchCount, matchesOf, List.countP_cons, List.filterMap_cons] at *
        simp [hpe, ih]
      · by_cases hp : pat s = true
        · simp only [specMatchCount, matchesOf, List.countP_cons, List.filterMap_cons] at *
          simp [hs, hp, ih]
        · simp only [specMatchCount, matchesOf, List.countP_cons, List.filterMap_cons] at *
          simp [hs, hp, ih]

/-- Membership in the pattern-loop detections, in explicit form. -/
theorem mem_patternDetections (patterns : List (PIIType × (String → Bool))) (mc : ℚ)
    (col : String) (samples : List (Option String)) (fs : Option Nat) (d : PIIDetection) :
    d ∈ patternDetections patterns mc col samples fs ↔
      ∃ p ∈ patterns, matchesOf p.2 samples ≠ []
        ∧ mc ≤ patternConfidence (matchesOf p.2 samples).length samples.length
        ∧ d = ⟨p.1, col, resolvedRowCount fs samples.length,
            (matchesOf p.2 samples).take 5,
            patternConfidence (matchesOf p.2 samples).length samples.length⟩ := by
  simp only [patternDetections, List.mem_filterMap]
  constructor
  · rintro ⟨p, hp, he⟩
    by_cases h1 : matchesOf p.2 samples = []
    · rw [if_pos h1] at he
      exact Option.noConfusion he
    · rw [if_neg h1] at he
      by_cases h2 : mc ≤ patternConfidence (matchesOf p.2 samples).length samples.length
      · rw [if_pos h2] at he
        exact ⟨p, hp, h1, h2, (Option.some.inj he).symm⟩
      · rw [if_neg h2] at he
        exact Option.noConfusion he
  · rintro ⟨p, hp, h1, h2, he⟩
    refine ⟨p, hp, ?_⟩
    rw [if_neg h1, if_pos h2, he]

/-- Membership in the name-detector output fixes the type, row count and
sample list of the detection. -/
theorem mem_nameDetections (mc : ℚ) (col : String) (samples : List (Option String))
    (d : PIIDetection) (hd : d ∈ nameDetections mc col samples) :
    d.pii_type = PIIType.name ∧ d.row_count = samples.length
    ∧ d.sample_values = (samples.take 5).filterMap (fun v =>
        match v with
        | some s => if s ≠ "" then some s else none
        | none => none) := by
  simp only [nameDetections] at hd
  split at hd
  · split at hd
    · exact absurd hd (List.not_mem_nil d)
    · split at hd
      · rw [List.mem_singleton] at hd
        subst hd
        exact ⟨rfl, rfl, rfl⟩
      · exact absurd hd (List.not_mem_nil d)
  · exact absurd hd (List.not_mem_nil d)

/-- In an assoc list with distinct keys, a key determines its value. -/
theorem assoc_keys_unique {β : Type} :
    ∀ (l : List (PIIType × β)), (l.map Prod.fst).Nodup →
      ∀ (a : PIIType) (b c : β), (a, b) ∈ l → (a, c) ∈ l → b = c := by
  intro l
  induction l with
  | nil =>
    intro _ a b c h1 _
    exact absurd h1 (List.not_mem_nil _)
  | cons hd tl ih =>
    intro hnd a b c h1 h2
    rw [List.map_cons, List.nodup_cons] at hnd
    obtain ⟨hnotin, hnd2⟩ := hnd
    rcases List.mem_cons.mp h1 with he1 | ht1
    · rcases List.mem_cons.mp h2 with he2 | ht2
      · have hbc := he1.trans he2.symm
        exact congrArg Prod.snd hbc
      · exfalso
        apply hnotin
        rw [← he1]
        exact List.mem_map.mpr ⟨(a, c), ht2, rfl⟩
    · rcases List.mem_cons.mp h2 with he2 | ht2
      · exfalso
        apply hnotin
        rw [← he2]
        exact List.mem_map.mpr ⟨(a, b), ht1, rfl⟩
      · exact ih hnd2 a b c ht1 ht2

end PIIDetectorTheorems

section PIIDetectorClaims

unseal Rat.mul Rat.inv in
/-- C7 counterexample: with the minimum confidence configured to 0 (a legal
value of the [0,1] configuration surface), a column sample with zero matches
has confidence min(0 times 1.2, 1.0) = 0, which reaches the threshold, yet
the source emits no classification because its loop requires at least one
match; so emission is not exactly characterized by the confidence
comparison. -/
theorem pattern_emission_zero_threshold_cex :
    detect_pii_in_column [(PIIType.email, emailAt)] 0 "c" [some "zzz"] none = []
    ∧ ((0 : ℚ) ≤ patternConfidence (specMatchCount emailAt [some "zzz"])
        ([some "zzz"] : List (Option String)).length) := by
  constructor
  · rfl
  · decide

/-- C7 amended: a pattern classification for a registry entry is emitted
exactly when at least one sampled value matches the pattern and the
confidence min(matchRatio times 1.2, 1.0) reaches the configured minimum,
with matchRatio the number of non-null string sampled values matching the
pattern divided by the sample size (hypotheses: the registry keys are
distinct as in the source dict, the queried type is not the separately
handled NAME type, and no pattern accepts the empty string, as none of the
built-in patterns does); an empty sample yields no classifications. -/
theorem pattern_emission_iff_match_and_conf
    (patterns : List (PIIType × (String → Bool))) (mc : ℚ) (col : String)
    (samples : List (Option String)) (fs : Option Nat) (ty : PIIType)
    (pat : String → Bool)
    (hnd : (patterns.map Prod.fst).Nodup) (hmem : (ty, pat) ∈ patterns)
    (hty : ty ≠ PIIType.name) (hpe : ∀ p ∈ patterns, p.2 "" = false) :
    ((∃ d ∈ detect_pii_in_column patterns mc col samples fs, d.pii_type = ty) ↔
      (1 ≤ specMatchCount pat samples
        ∧ mc ≤ patternConfidence (specMatchCount pat samples) samples.length))
    ∧ detect_pii_in_column patterns mc col [] fs = [] := by
  refine ⟨?_, rfl⟩
  rw [specMatchCount_eq pat (hpe _ hmem)]
  by_cases hempty : samples.length = 0
  · have hs : samples = [] := List.length_eq_zero.mp hempty
    subst hs
    constructor
    · rintro ⟨d, hd, _⟩
      simp [detect_pii_in_column] at hd
    · rintro ⟨h1, _⟩
      simp [matchesOf] at h1
  · unfold detect_pii_in_column
    rw [if_neg hempty]
    constructor
    · rintro ⟨d, hd, hdty⟩
      rcases List.mem_append.mp hd with hpd | hnd2
      · obtain ⟨p, hp, h1, h2, he⟩ :=
          (mem_patternDetections patterns mc col samples fs d).mp hpd
        cases p with
        | mk p1 p2 =>
          have hp1 : p1 = ty := by rw [he] at hdty; exact hdty
          subst hp1
          have hp2 : p2 = pat := assoc_keys_unique patterns hnd p1 p2 pat hp hmem
          subst hp2
          refine ⟨?_, h2⟩
          exact Nat.one_le_iff_ne_zero.mpr
            (fun h0 => h1 (List.length_eq_zero.mp h0))
      · have := (mem_nameDetections mc col samples d hnd2).1
        rw [hdty] at this
        exact absurd this hty
    · rintro ⟨h1, h2⟩
      have hne2 : matchesOf pat samples ≠ [] := by
        intro h0
        rw [h0] at h1
        simp at h1
      refine ⟨⟨ty, col, resolvedRowCount fs samples.length,
        (matchesOf pat samples).take 5,
        patternConfidence (matchesOf pat samples).length samples.length⟩, ?_, rfl⟩
      apply List.mem_append_left
      exact (mem_patternDetections patterns mc col samples fs _).mpr
        ⟨(ty, pat), hmem, hne2, h2, rfl⟩

/-- C7 witness: the toy email matcher on a sample of three values, two of
which match, at the default threshold. -/
theorem pattern_emission_iff_match_and_conf_witness :
    ((([(PIIType.email, emailAt)].map Prod.fst).Nodup
      ∧ (PIIType.email, emailAt) ∈ [(PIIType.email, emailAt)]
      ∧ PIIType.email ≠ PIIType.name
      ∧ ∀ p ∈ [(PIIType.email, emailAt)], p.2 "" = false)
    ∧ (((∃ d ∈ detect_pii_in_column [(PIIType.email, emailAt)] (7 / 10) "c"
          [some "a@b", some "c@d", none] none, d.pii_type = PIIType.email) ↔
        (1 ≤ specMatchCount emailAt [some "a@b", some "c@d", none]
          ∧ (7 / 10 : ℚ) ≤ patternConfidence
              (specMatchCount emailAt [some "a@b", some "c@d", none])
              ([some "a@b", some "c@d", none] : List (Option String)).length))
      ∧ detect_pii_in_column [(PIIType.email, emailAt)] (7 / 10) "c" [] none = [])) :=
  ⟨⟨by decide, List.mem_singleton.mpr rfl, by decide,
    fun p hp => by rw [List.mem_singleton] at hp; subst hp; rfl⟩,
   pattern_emission_iff_match_and_conf [(PIIType.email, emailAt)] (7 / 10) "c"
     [some "a@b", some "c@d", none] none PIIType.email emailAt
     (by decide) (List.mem_singleton.mpr rfl) (by decide)
     (fun p hp => by rw [List.mem_singleton] at hp; subst hp; rfl)⟩

unseal Rat.mul Rat.inv in
/-- C8 counterexample: on a name column with 2 sampled values and a declared
total of 10 rows, the name detector emits a classification whose row count is
2 (the sample size, not the supplied total row count) and whose sample list
contains the value zzz, which matches no dictionary name; so not every
classification carries matching samples and the total row count. -/
theorem name_detector_metadata_cex :
    detect_pii_in_column [] (7 / 10) "name" [some "zzz", some "john smith"] (some 10)
      = [⟨PIIType.name, "name", 2, ["zzz", "john smith"], 3 / 4⟩]
    ∧ hasCommonName "zzz" = false
    ∧ (2 : Nat) ≠ 10 := by
  refine ⟨by decide, rfl, by decide⟩

/-- C8 amended: every classification carries at most 5 sample values, each a
non-empty sampled string; a pattern classification (type other than NAME,
with NAME absent from the registry keys) carries only values matching its
pattern and the resolved row count (full_data_size when supplied and
nonzero, else the sample size); a name-detector classification carries the
non-empty values among the first 5 samples (matching or not) and the sample
size as its row count. -/
theorem detection_sample_and_rowcount
    (patterns : List (PIIType × (String → Bool))) (mc : ℚ) (col : String)
    (samples : List (Option String)) (fs : Option Nat)
    (hn : PIIType.name ∉ patterns.map Prod.fst) :
    ∀ d ∈ detect_pii_in_column patterns mc col samples fs,
      d.sample_values.length ≤ 5
      ∧ (∀ s ∈ d.sample_values, some s ∈ samples ∧ s ≠ "")
      ∧ (d.pii_type ≠ PIIType.name →
          d.row_count = resolvedRowCount fs samples.length
          ∧ ∃ p ∈ patterns, p.1 = d.pii_type ∧ ∀ s ∈ d.sample_values, p.2 s = true)
      ∧ (d.pii_type = PIIType.name → d.row_count = samples.length) := by
  intro d hd
  unfold detect_pii_in_column at hd
  by_cases hempty : samples.length = 0
  · rw [if_pos hempty] at hd
    exact absurd hd (List.not_mem_nil d)
  · rw [if_neg hempty] at hd
    rcases List.mem_append.mp hd with hpd | hnd2
    · obtain ⟨p, hp, h1, h2, he⟩ :=
        (mem_patternDetections patterns mc col samples fs d).mp hpd
      subst he
      refine ⟨?_, ?_, ?_, ?_⟩
      · exact List.length_take_le 5 _
      · intro s hs
        obtain ⟨hv, hne, _⟩ :=
          (mem_matchesOf p.2 samples s).mp (List.take_subset _ _ hs)
        exact ⟨hv, hne⟩
      · intro _
        exact ⟨rfl, p, hp, rfl, fun s hs =>
          ((mem_matchesOf p.2 samples s).mp (List.take_subset _ _ hs)).2.2⟩
      · intro hname
        exact absurd (List.mem_map.mpr ⟨p, hp, hname⟩) hn
    · obtain ⟨hdty, hdrc, hdsv⟩ := mem_nameDetections mc col samples d hnd2
      refine ⟨?_, ?_, ?_, fun _ => hdrc⟩
      · rw [hdsv]
        exact le_trans (List.length_filterMap_le _ _) (List.length_take_le 5 _)
      · intro s hs
        rw [hdsv] at hs
        obtain ⟨v, hv, he⟩ := List.mem_filterMap.mp hs
        cases v with
        | none => exact Option.noConfusion he
        | some s2 =>
          have he2 : (if s2 ≠ "" then some s2 else none) = some s := he
          by_cases hs2 : s2 ≠ ""
          · rw [if_pos hs2] at he2
            have hss := Option.some.inj he2
            subst hss
            exact ⟨List.take_subset _ _ hv, hs2⟩
          · rw [if_neg hs2] at he2
            exact Option.noConfusion he2
      · intro hne
        exact absurd hdty hne

/-- C8 witness: a name column alongside a pattern registry without the NAME
key; both detector families emit and the amended metadata facts hold. -/
theorem detection_sample_and_rowcount_witness :
    (PIIType.name ∉ ([(PIIType.email, emailAt)].map Prod.fst))
    ∧ ∀ d ∈ detect_pii_in_column [(PIIType.email, emailAt)] (7 / 10) "name"
        [some "a@b", some "john smith"] (some 7),
        d.sample_values.length ≤ 5
        ∧ (∀ s ∈ d.sample_values,
            some s ∈ ([some "a@b", some "john smith"] : List (Option String)) ∧ s ≠ "")
        ∧ (d.pii_type ≠ PIIType.name →
            d.row_count = resolvedRowCount (some 7)
              ([some "a@b", some "john smith"] : List (Option String)).length
            ∧ ∃ p ∈ [(PIIType.email, emailAt)], p.1 = d.pii_type
                ∧ ∀ s ∈ d.sample_values, p.2 s = true)
        ∧ (d.pii_type = PIIType.name →
            d.row_count = ([some "a@b", some "john smith"] : List (Option String)).length) :=
  ⟨by decide,
   detection_sample_and_rowcount [(PIIType.email, emailAt)] (7 / 10) "name"
     [some "a@b", some "john smith"] (some 7) (by decide)⟩

end PIIDetectorClaims
